import Mathlib

/-!
Verification of the string post-processing, polling and error-handling logic of
the Auto Prescribe transcription app (src/streamlit_app.py).

The Python code is shallowly embedded over `List Char` (one entry per Unicode
code point, matching Python's per-code-point string indexing).  The embeddings
of the Python string primitives (`str.strip`, `str.split` with and without a
maxsplit of 1, `in`, `str.replace` of a single character, `str.join`,
`str.lower`, `str.startswith`, slicing) are defined first; the app's own
transformations are then literal translations of the corresponding source
lines.  `Char.isWhitespace` (space, tab, carriage return, newline) stands in
for Python's whitespace class, and `Char.toLower` for `str.lower`; the two
differ from Python only on exotic Unicode characters that never occur in the
markers and labels the app manipulates.
-/

namespace Transcribe

/-- Whitespace test used by the embedding of Python `str.strip`. -/
def isWS (c : Char) : Bool := c.isWhitespace

/-- Left part of Python `str.strip`: drop leading whitespace. -/
def lstripL (l : List Char) : List Char := l.dropWhile isWS

/-- Right part of Python `str.strip`: drop trailing whitespace. -/
def rstripL (l : List Char) : List Char := (l.reverse.dropWhile isWS).reverse

/-- Embedding of Python `str.strip()`: drop leading and trailing whitespace. -/
def pyStripL (l : List Char) : List Char := rstripL (lstripL l)

/-- Embedding of Python `s.split(pat, 1)`: locate the first occurrence of
`pat` in the list and return the parts strictly before and strictly after it,
or `none` when `pat` does not occur. -/
def splitFirstL (pat : List Char) : List Char → Option (List Char × List Char)
  | [] => if pat.isPrefixOf ([] : List Char) then some ([], ([] : List Char).drop pat.length) else none
  | c :: cs =>
    if pat.isPrefixOf (c :: cs) then some ([], (c :: cs).drop pat.length)
    else (splitFirstL pat cs).map fun p => (c :: p.1, p.2)

/-- Embedding of Python `pat in s` (substring containment). -/
def containsL (l pat : List Char) : Bool := (splitFirstL pat l).isSome

/-- Embedding of Python `s.split(c)` for a one-character separator: split on
every occurrence of `c`, keeping empty pieces (so `"a..b".split('.')` gives
`["a", "", "b"]`). -/
def splitChar (c : Char) : List Char → List (List Char)
  | [] => [[]]
  | x :: xs =>
    let r := splitChar c xs
    if x = c then [] :: r
    else (x :: r.headI) :: r.tail

/-- Embedding of Python `sep.join(parts)`. -/
def pyJoin (sep : List Char) : List (List Char) → List Char
  | [] => []
  | [x] => x
  | x :: y :: ys => x ++ sep ++ pyJoin sep (y :: ys)

/-- Embedding of `key_actions.replace(';', '.')` at the character level
(Python `str.replace` with one-character arguments maps characters). -/
def semiToDot (c : Char) : Char := if c = ';' then '.' else c

/-- The literal marker string of the app, `"Key Actions:"`. -/
def markerL : List Char := ("Key Actions:").data

/-- The bullet marker `"- "` tested by `"- " in key_actions`. -/
def dashMarkL : List Char := ("- ").data

/-- The lower-case label `"summary:"` tested at line 133 of the source. -/
def labelL : List Char := ("summary:").data

/-- `summary_text.split("Key Actions:", 1)[0]` guarded by the `in` test
(source lines 131-132): the part of the text before the first occurrence of
the marker, or the whole text when the marker is absent. -/
def beforeMarkerL (s : List Char) : List Char :=
  match splitFirstL markerL s with
  | some p => p.1
  | none => s

/-- Source lines 133-134: when the lowercased, stripped text starts with
`"summary:"`, drop the first `len("summary:") = 8` characters of the
(unstripped) text and strip the result; otherwise leave the text alone. -/
def stripLabelL (s : List Char) : List Char :=
  if labelL.isPrefixOf (pyStripL (s.map Char.toLower)) then pyStripL (s.drop 8)
  else s

/-- Source lines 130-134: the text shown in the Summary page's display area,
computed from the stored summary. -/
def summaryDisplayL (s : List Char) : List Char :=
  stripLabelL (beforeMarkerL s)

/-- Source lines 150-152: `key_actions` is empty unless the marker occurs in
the summary, in which case it is `summary.split("Key Actions:", 1)[-1].strip()`. -/
def extractKeyActionsL (summary : List Char) : List Char :=
  match splitFirstL markerL summary with
  | some p => pyStripL p.2
  | none => []

/-- The newline character used by the formatting code. -/
def newlineChar : Char := Char.ofNat 10

/-- Source line 157: `[pt.strip() for pt in key_actions.replace(';', '.').split('.') if pt.strip()]`. -/
def fragmentsL (ka : List Char) : List (List Char) :=
  ((splitChar '.' (ka.map semiToDot)).map pyStripL).filter fun p => !p.isEmpty

/-- Source lines 154-159: bullet formatting of the key-actions text.  The
reformatting runs only when the text is non-empty (Python truthiness) and
contains neither `"- "` nor a newline, and replaces the text only when the
split yields more than one surviving fragment. -/
def displayKeyActionsL (ka : List Char) : List Char :=
  if !ka.isEmpty && !(containsL ka dashMarkL || containsL ka [newlineChar]) then
    if 1 < (fragmentsL ka).length then
      pyJoin [newlineChar] ((fragmentsL ka).map fun p => '-' :: ' ' :: p)
    else ka
  else ka

/-- Placeholder shown when the formatted key actions are empty
(`display_key_actions or "No key actions found."`, source lines 160-164). -/
def placeholderL : List Char := ("No key actions found.").data

/-- Source lines 136-143: the Summary page hands the same `summary_text`
variable to the display area and to the download button, so the pair below is
(displayed text, download payload). -/
def summaryPage (summary : List Char) : List Char × List Char :=
  (summaryDisplayL summary, summaryDisplayL summary)

/-- Source line 160/163: `display_key_actions or "No key actions found."`,
the value shown on the Key Insights page and offered for download. -/
def keyInsightsShownL (summary : List Char) : List Char :=
  if (displayKeyActionsL (extractKeyActionsL summary)).isEmpty then placeholderL
  else displayKeyActionsL (extractKeyActionsL summary)

/-- Source lines 160-166: the Key Insights page hands the same expression to
the display area and to the download button. -/
def keyInsightsPage (summary : List Char) : List Char × List Char :=
  (keyInsightsShownL summary, keyInsightsShownL summary)

/-- One response of the polling endpoint (source lines 70-74): its `status`
field and the `text` field read on completion. -/
structure PollRes where
  status : String
  text : String
deriving DecidableEq, Repr

/-- A message surfaced in the interface (`st.success`, `st.error`, `st.info`). -/
inductive Msg where
  | success : String → Msg
  | err : String → Msg
  | info : String → Msg
deriving DecidableEq, Repr

/-- The loop condition of source line 69: `status not in ["completed", "error"]`. -/
def isTerminal (s : String) : Bool := decide (s = ("completed") ∨ s = ("error"))

/-- Source lines 66-81: the polling loop, consuming one poll response per
iteration.  Returns the final transcript value, the messages shown, and the
terminal status reached — `none` when the given response sequence ran out
before any terminal status, i.e. the loop is still running. -/
def pollLoop (t : String) : List PollRes → String × List Msg × Option String
  | [] => (t, [], none)
  | r :: rs =>
    if r.status = ("completed") then
      (r.text, [Msg.success ("✅ Transcription completed!")], some ("completed"))
    else if r.status = ("error") then
      (t, [Msg.err ("Transcription failed.")], some ("error"))
    else
      let p := pollLoop t rs
      (p.1, Msg.info (("Status: ") ++ r.status ++ ("... Waiting...")) :: p.2.1, p.2.2)

/-- Source lines 49-81: one run of the transcription stage.  `uploadOk` and
`submitOk` are the `status_code == 200` outcomes of the two POST requests;
`polls` is the sequence of poll responses; `t` is the transcript held in
session state when the run starts.  Returns the transcript after the run and
the messages shown. -/
def transcribeRun (uploadOk submitOk : Bool) (polls : List PollRes) (t : String) :
    String × List Msg :=
  if !uploadOk then (t, [Msg.err ("Audio upload failed. Please check your API key or network.")])
  else if !submitOk then (t, [Msg.err ("Failed to request transcription.")])
  else ((pollLoop t polls).1, (pollLoop t polls).2.1)

/-- The summarization response (source lines 117-127): `ok` is
`status_code == 200`, `text` is the nested `candidates[0].content.parts[0].text`
field when the response body has that shape and `none` when indexing into the
body raises (the `except` branch), `raw` is the body text used in the error
message. -/
structure GeminiRes where
  ok : Bool
  text : Option String
  raw : String

/-- Source lines 119-127: one run of the summarization stage over the summary
held in session state.  Returns the summary after the run and the messages
shown. -/
def summarizeRun (res : GeminiRes) (summary : String) : String × List Msg :=
  if res.ok then
    match res.text with
    | some t => (t, [Msg.success ("✅ Summary generated!")])
    | none => (summary, [Msg.err ("Response parsing failed.")])
  else (summary, [Msg.err (("Gemini API error: ") ++ res.raw)])

/-- Modelled from the spec: the displayed Summary view according to the spec's
words — "text before the literal marker ... if present, else the full text; a
leading Summary label (case-insensitive, surrounding whitespace ignored) is
stripped if present".  Second definition, kept for comparison with the
source-derived `summaryDisplayL`; it strips surrounding whitespace before
removing the eight label characters, so the label is removed even when
whitespace precedes it. -/
def specSummaryDisplayL (s : List Char) : List Char :=
  if labelL.isPrefixOf ((pyStripL (beforeMarkerL s)).map Char.toLower) then
    pyStripL ((pyStripL (beforeMarkerL s)).drop 8)
  else beforeMarkerL s

/-- String-level wrapper for `summaryDisplayL`. -/
def summaryDisplay (s : String) : String := ⟨summaryDisplayL s.data⟩

/-- String-level wrapper for `extractKeyActionsL`. -/
def extractKeyActions (s : String) : String := ⟨extractKeyActionsL s.data⟩

/-- String-level wrapper for `displayKeyActionsL`. -/
def displayKeyActions (s : String) : String := ⟨displayKeyActionsL s.data⟩

theorem isPrefixOf_drop_eq {p l : List Char} (h : p.isPrefixOf l = true) :
    l = p ++ l.drop p.length := by
  obtain ⟨t, rfl⟩ := List.isPrefixOf_iff_prefix.mp h
  rw [List.drop_left]

theorem splitFirstL_eq_append (pat : List Char) :
    ∀ l b a, splitFirstL pat l = some (b, a) → l = b ++ pat ++ a := by
  intro l
  induction l with
  | nil =>
    intro b a h
    simp only [splitFirstL] at h
    split at h
    · next hpre =>
      have hp : pat = [] := List.prefix_nil.mp (List.isPrefixOf_iff_prefix.mp hpre)
      simp only [Option.some.injEq, Prod.mk.injEq] at h
      obtain ⟨hb, ha⟩ := h
      subst hb; subst ha; simp [hp]
    · exact absurd h (by simp)
  | cons c cs ih =>
    intro b a h
    simp only [splitFirstL] at h
    split at h
    · next hpre =>
      simp only [Option.some.injEq, Prod.mk.injEq] at h
      obtain ⟨hb, ha⟩ := h
      subst hb; subst ha
      simpa using isPrefixOf_drop_eq hpre
    · next hpre =>
      rw [Option.map_eq_some'] at h
      obtain ⟨⟨b', a'⟩, hsp, heq⟩ := h
      simp only [Prod.mk.injEq] at heq
      obtain ⟨hb, ha⟩ := heq
      subst hb; subst ha
      simp [ih b' a' hsp]

theorem splitFirstL_min (pat : List Char) :
    ∀ l b a, splitFirstL pat l = some (b, a) → ∀ k, k < b.length → ¬ pat <+: l.drop k := by
  intro l
  induction l with
  | nil =>
    intro b a h k hk
    simp only [splitFirstL] at h
    split at h
    · simp only [Option.some.injEq, Prod.mk.injEq] at h
      obtain ⟨hb, _⟩ := h
      subst hb
      simp at hk
    · simp at h
  | cons c cs ih =>
    intro b a h k hk
    simp only [splitFirstL] at h
    split at h
    · simp only [Option.some.injEq, Prod.mk.injEq] at h
      obtain ⟨hb, _⟩ := h; subst hb; simp at hk
    · next hpre =>
      rw [Option.map_eq_some'] at h
      obtain ⟨⟨b', a'⟩, hsp, heq⟩ := h
      simp only [Prod.mk.injEq] at heq
      obtain ⟨hb, ha⟩ := heq; subst hb; subst ha
      cases k with
      | zero =>
        intro hcontra
        rw [List.drop_zero] at hcontra
        exact hpre (List.isPrefixOf_iff_prefix.mpr hcontra)
      | succ k =>
        simp only [List.length_cons, Nat.succ_lt_succ_iff] at hk
        simpa using ih b' a' hsp k hk

theorem splitFirstL_isSome_of_occurs (pat : List Char) :
    ∀ l, pat <:+: l → (splitFirstL pat l).isSome = true := by
  intro l
  induction l with
  | nil =>
    intro h
    have hp : pat = [] := by
      obtain ⟨s, t, hst⟩ := h
      have := List.append_eq_nil.mp hst
      exact (List.append_eq_nil.mp this.1).2
    simp [splitFirstL, hp, List.isPrefixOf]
  | cons c cs ih =>
    intro h
    simp only [splitFirstL]
    split
    · rfl
    · next hpre =>
      rw [Option.isSome_map']
      apply ih
      obtain ⟨s, t, hst⟩ := h
      cases s with
      | nil =>
        exact absurd (List.isPrefixOf_iff_prefix.mpr ⟨t, by simpa using hst⟩) hpre
      | cons x s' =>
        simp only [List.cons_append, List.cons.injEq] at hst
        exact ⟨s', t, hst.2⟩

theorem containsL_iff (l pat : List Char) : containsL l pat = true ↔ pat <:+: l := by
  constructor
  · intro h
    rw [containsL] at h
    obtain ⟨⟨b, a⟩, hsp⟩ := Option.isSome_iff_exists.mp h
    exact ⟨b, a, (splitFirstL_eq_append pat l b a hsp).symm⟩
  · exact splitFirstL_isSome_of_occurs pat l

theorem containsL_eq_false_iff (l pat : List Char) : containsL l pat = false ↔ ¬ pat <:+: l := by
  rw [← containsL_iff l pat]
  cases h : containsL l pat <;> simp

theorem mem_iff_singleton_between (c : Char) (l : List Char) : c ∈ l ↔ [c] <:+: l := by
  constructor
  · intro h
    obtain ⟨s, t, rfl⟩ := List.append_of_mem h
    exact ⟨s, t, by simp⟩
  · rintro ⟨s, t, rfl⟩
    simp

theorem splitFirstL_eq_none (pat l : List Char) (h : containsL l pat = false) :
    splitFirstL pat l = none := by
  rw [containsL] at h
  exact Option.not_isSome_iff_eq_none.mp (by simp [h])

theorem rstripL_idem (l : List Char) : rstripL (rstripL l) = rstripL l := by
  simp only [rstripL, List.reverse_reverse]
  rw [List.dropWhile_idempotent]

theorem rstripL_prefix (l : List Char) : rstripL l <+: l := by
  refine ⟨(l.reverse.takeWhile isWS).reverse, ?_⟩
  calc (l.reverse.dropWhile isWS).reverse ++ (l.reverse.takeWhile isWS).reverse
      = ((l.reverse.takeWhile isWS) ++ (l.reverse.dropWhile isWS)).reverse := by
        rw [List.reverse_append]
    _ = (l.reverse).reverse := by rw [List.takeWhile_append_dropWhile]
    _ = l := List.reverse_reverse l

theorem lstripL_eq_self_head (c : Char) (t : List Char) (h : lstripL (c :: t) = c :: t) :
    isWS c = false := by
  by_contra hc
  rw [Bool.not_eq_false] at hc
  rw [lstripL, List.dropWhile_cons, if_pos hc] at h
  have hlen : (t.dropWhile isWS).length ≤ t.length := (List.dropWhile_suffix isWS).length_le
  rw [h] at hlen
  simp at hlen

theorem lstripL_rstripL_of (m : List Char) (hm : lstripL m = m) :
    lstripL (rstripL m) = rstripL m := by
  cases hr : rstripL m with
  | nil => rfl
  | cons c t =>
    obtain ⟨u, hu⟩ := rstripL_prefix m
    rw [hr] at hu
    rw [← hu] at hm
    have hc : isWS c = false := lstripL_eq_self_head c (t ++ u) (by simpa using hm)
    rw [lstripL, List.dropWhile_cons, if_neg]
    rw [hc]
    simp

theorem pyStripL_idem (l : List Char) : pyStripL (pyStripL l) = pyStripL l := by
  rw [pyStripL, pyStripL]
  have h1 : lstripL (lstripL l) = lstripL l := List.dropWhile_idempotent isWS l
  rw [lstripL_rstripL_of (lstripL l) h1, rstripL_idem]

theorem mem_of_mem_pyStripL {x : Char} {l : List Char} (h : x ∈ pyStripL l) : x ∈ l := by
  simp only [pyStripL, rstripL, lstripL] at h
  rw [List.mem_reverse] at h
  have h2 := (List.dropWhile_suffix isWS).subset h
  rw [List.mem_reverse] at h2
  exact (List.dropWhile_suffix isWS).subset h2

theorem splitChar_ne_nil (c : Char) : ∀ l, splitChar c l ≠ [] := by
  intro l
  cases l with
  | nil => simp [splitChar]
  | cons x xs =>
    simp only [splitChar]
    split
    · simp
    · simp

theorem mem_splitChar_not_mem (c : Char) :
    ∀ l p, p ∈ splitChar c l → c ∉ p := by
  intro l
  induction l with
  | nil =>
    intro p hp
    simp [splitChar] at hp
    subst hp; simp
  | cons x xs ih =>
    intro p hp
    simp only [splitChar] at hp
    by_cases hx : x = c
    · rw [if_pos hx] at hp
      rcases List.mem_cons.mp hp with h | h
      · subst h; simp
      · exact ih p h
    · rw [if_neg hx] at hp
      cases hs : splitChar c xs with
      | nil => exact absurd hs (splitChar_ne_nil c xs)
      | cons q qs =>
        rw [hs] at hp
        simp only [List.headI_cons, List.tail_cons] at hp
        rcases List.mem_cons.mp hp with h | h
        · subst h
          intro hmem
          rcases List.mem_cons.mp hmem with h1 | h1
          · exact hx h1.symm
          · exact ih q (by rw [hs]; exact List.mem_cons_self q qs) h1
        · exact ih p (by rw [hs]; exact List.mem_cons_of_mem q h)

theorem mem_of_mem_splitChar (c : Char) :
    ∀ l p x, p ∈ splitChar c l → x ∈ p → x ∈ l := by
  intro l
  induction l with
  | nil =>
    intro p x hp hx
    simp [splitChar] at hp
    subst hp; simp at hx
  | cons y ys ih =>
    intro p x hp hx
    simp only [splitChar] at hp
    by_cases hy : y = c
    · rw [if_pos hy] at hp
      rcases List.mem_cons.mp hp with h | h
      · subst h; simp at hx
      · exact List.mem_cons_of_mem y (ih p x h hx)
    · rw [if_neg hy] at hp
      cases hs : splitChar c ys with
      | nil => exact absurd hs (splitChar_ne_nil c ys)
      | cons q qs =>
        rw [hs] at hp
        simp only [List.headI_cons, List.tail_cons] at hp
        rcases List.mem_cons.mp hp with h | h
        · subst h
          rcases List.mem_cons.mp hx with h1 | h1
          · rw [h1]; exact List.mem_cons_self y ys
          · exact List.mem_cons_of_mem y
              (ih q x (by rw [hs]; exact List.mem_cons_self q qs) h1)
        · exact List.mem_cons_of_mem y
            (ih p x (by rw [hs]; exact List.mem_cons_of_mem q h) hx)

theorem splitChar_of_not_mem (c : Char) : ∀ l, c ∉ l → splitChar c l = [l] := by
  intro l
  induction l with
  | nil => intro h; rfl
  | cons x xs ih =>
    intro h
    have hx : x ≠ c := fun he => h (by rw [he]; exact List.mem_cons_self c xs)
    have hxs : c ∉ xs := fun hm => h (List.mem_cons_of_mem x hm)
    simp only [splitChar, if_neg hx, ih hxs]
    simp

theorem splitChar_append (c : Char) :
    ∀ p m, c ∉ p → splitChar c (p ++ c :: m) = p :: splitChar c m := by
  intro p
  induction p with
  | nil =>
    intro m h
    simp only [List.nil_append, splitChar]
    simp
  | cons x p' ih =>
    intro m h
    have hx : x ≠ c := fun he => h (by rw [he]; exact List.mem_cons_self c p')
    have hp' : c ∉ p' := fun hm => h (List.mem_cons_of_mem x hm)
    rw [List.cons_append]
    simp only [splitChar, if_neg hx, ih m hp']
    simp

theorem splitChar_pyJoin (c : Char) :
    ∀ qs : List (List Char), qs ≠ [] → (∀ q ∈ qs, c ∉ q) →
      splitChar c (pyJoin [c] qs) = qs := by
  intro qs
  induction qs with
  | nil => intro h _; exact absurd rfl h
  | cons q qs' ih =>
    intro _ hq
    cases qs' with
    | nil =>
      simp only [pyJoin]
      exact splitChar_of_not_mem c q (hq q (List.mem_cons_self q []))
    | cons q2 qs'' =>
      simp only [pyJoin]
      have hrw : q ++ [c] ++ pyJoin [c] (q2 :: qs'') = q ++ c :: pyJoin [c] (q2 :: qs'') := by
        simp
      rw [hrw, splitChar_append c q _ (hq q (List.mem_cons_self q _)),
        ih (by simp) (fun r hr => hq r (List.mem_cons_of_mem q hr))]

theorem pyStripL_label_append (y : List Char) :
    pyStripL (labelL ++ y) = labelL ++ rstripL y := by
  have h1 : lstripL (labelL ++ y) = labelL ++ y := by
    rw [lstripL, List.dropWhile_append]
    have hd : labelL.dropWhile isWS = labelL := by decide
    rw [hd]
    have : labelL.isEmpty = false := by decide
    rw [this]
    simp
  have h2 : (labelL ++ y).reverse.dropWhile isWS = y.reverse.dropWhile isWS ++ labelL.reverse := by
    rw [List.reverse_append, List.dropWhile_append]
    split
    · next he =>
      rw [List.isEmpty_iff] at he
      rw [he]
      have : labelL.reverse.dropWhile isWS = labelL.reverse := by decide
      rw [this]
      simp
    · rfl
  rw [pyStripL, h1, rstripL, h2, List.reverse_append, List.reverse_reverse]
  rw [rstripL]

theorem stripLabelL_label_append (p r : List Char) (hp : p.map Char.toLower = labelL) :
    stripLabelL (p ++ r) = pyStripL r := by
  have hmap : (p ++ r).map Char.toLower = labelL ++ r.map Char.toLower := by
    rw [List.map_append, hp]
  have hlen : p.length = 8 := by
    have := congrArg List.length hp
    simpa using this
  rw [stripLabelL, if_pos]
  · rw [← hlen, List.drop_left]
  · rw [hmap, pyStripL_label_append]
    exact List.isPrefixOf_iff_prefix.mpr ⟨rstripL (r.map Char.toLower), rfl⟩

theorem displayKeyActionsL_eq_join (ka : List Char) (h0 : ka ≠ [])
    (h1 : containsL ka dashMarkL = false) (h2 : containsL ka [newlineChar] = false)
    (h3 : 1 < (fragmentsL ka).length) :
    displayKeyActionsL ka = pyJoin [newlineChar] ((fragmentsL ka).map fun p => '-' :: ' ' :: p) := by
  have he : ka.isEmpty = false := by
    cases ka
    · exact absurd rfl h0
    · rfl
  rw [displayKeyActionsL, he, h1, h2]
  simp [h3]

theorem displayKeyActionsL_eq_self_of_contains (ka : List Char)
    (h : containsL ka dashMarkL = true ∨ containsL ka [newlineChar] = true) :
    displayKeyActionsL ka = ka := by
  rw [displayKeyActionsL]
  rcases h with h | h <;> rw [h] <;> simp

theorem displayKeyActionsL_eq_self_of_few (ka : List Char)
    (h3 : ¬ 1 < (fragmentsL ka).length) :
    displayKeyActionsL ka = ka := by
  rw [displayKeyActionsL, if_neg h3]
  split <;> rfl

theorem fragmentsL_mem (ka p : List Char) (hp : p ∈ fragmentsL ka) :
    ∃ q ∈ splitChar '.' (ka.map semiToDot), p = pyStripL q := by
  rw [fragmentsL, List.mem_filter] at hp
  obtain ⟨hm, _⟩ := hp
  rw [List.mem_map] at hm
  obtain ⟨q, hq, hqe⟩ := hm
  exact ⟨q, hq, hqe.symm⟩

theorem fragmentsL_no_dot (ka p : List Char) (hp : p ∈ fragmentsL ka) : '.' ∉ p := by
  obtain ⟨q, hq, hqe⟩ := fragmentsL_mem ka p hp
  intro hmem
  rw [hqe] at hmem
  exact mem_splitChar_not_mem '.' (ka.map semiToDot) q hq (mem_of_mem_pyStripL hmem)

theorem fragmentsL_chars (ka p : List Char) (hp : p ∈ fragmentsL ka) (x : Char) (hx : x ∈ p) :
    x ∈ ka.map semiToDot := by
  obtain ⟨q, hq, hqe⟩ := fragmentsL_mem ka p hp
  rw [hqe] at hx
  exact mem_of_mem_splitChar '.' (ka.map semiToDot) q x hq (mem_of_mem_pyStripL hx)

theorem fragmentsL_no_semi (ka p : List Char) (hp : p ∈ fragmentsL ka) : ';' ∉ p := by
  intro hmem
  have hmap := fragmentsL_chars ka p hp ';' hmem
  rw [List.mem_map] at hmap
  obtain ⟨y, _, hy⟩ := hmap
  rw [semiToDot] at hy
  split at hy
  · exact absurd hy (by decide)
  · next hne => exact hne hy

theorem fragmentsL_stripped (ka p : List Char) (hp : p ∈ fragmentsL ka) : pyStripL p = p := by
  obtain ⟨q, _, hqe⟩ := fragmentsL_mem ka p hp
  rw [hqe]
  exact pyStripL_idem q

theorem fragmentsL_no_newline (ka p : List Char) (h2 : containsL ka [newlineChar] = false)
    (hp : p ∈ fragmentsL ka) : newlineChar ∉ p := by
  intro hmem
  have hmap := fragmentsL_chars ka p hp newlineChar hmem
  rw [List.mem_map] at hmap
  obtain ⟨y, hy, hsy⟩ := hmap
  have hyn : y = newlineChar := by
    rw [semiToDot] at hsy
    split at hsy
    · exact absurd hsy (by decide)
    · exact hsy
  rw [hyn] at hy
  have hinf : containsL ka [newlineChar] = true :=
    (containsL_iff ka [newlineChar]).mpr ((mem_iff_singleton_between newlineChar ka).mp hy)
  rw [h2] at hinf
  exact absurd hinf (by decide)

theorem pollLoop_nonterminal (t : String) :
    ∀ rs : List PollRes, (∀ r ∈ rs, isTerminal r.status = false) →
      pollLoop t rs =
        (t, rs.map (fun r => Msg.info (("Status: ") ++ r.status ++ ("... Waiting..."))), none) := by
  intro rs
  induction rs with
  | nil => intro _; rfl
  | cons r rest ih =>
    intro h
    have hr : isTerminal r.status = false := h r (List.mem_cons_self r rest)
    rw [isTerminal] at hr
    rw [decide_eq_false_iff_not] at hr
    push_neg at hr
    simp only [pollLoop, if_neg hr.1, if_neg hr.2]
    rw [ih (fun q hq => h q (List.mem_cons_of_mem r hq))]
    rfl

theorem pollLoop_isSome_iff (t : String) :
    ∀ rs : List PollRes,
      ((pollLoop t rs).2.2.isSome = true ↔ ∃ r ∈ rs, isTerminal r.status = true) := by
  intro rs
  induction rs with
  | nil => simp [pollLoop]
  | cons r rest ih =>
    by_cases h1 : r.status = ("completed")
    · simp only [pollLoop, if_pos h1]
      constructor
      · intro _
        exact ⟨r, List.mem_cons_self r rest, by rw [isTerminal]; exact decide_eq_true (Or.inl h1)⟩
      · intro _; rfl
    · by_cases h2 : r.status = ("error")
      · simp only [pollLoop, if_neg h1, if_pos h2]
        constructor
        · intro _
          exact ⟨r, List.mem_cons_self r rest, by rw [isTerminal]; exact decide_eq_true (Or.inr h2)⟩
        · intro _; rfl
      · simp only [pollLoop, if_neg h1, if_neg h2]
        rw [ih]
        constructor
        · rintro ⟨x, hx, hterm⟩
          exact ⟨x, List.mem_cons_of_mem r hx, hterm⟩
        · rintro ⟨x, hx, hterm⟩
          rcases List.mem_cons.mp hx with h | h
          · exfalso
            rw [h, isTerminal] at hterm
            rcases of_decide_eq_true hterm with hc | hc
            · exact h1 hc
            · exact h2 hc
          · exact ⟨x, h, hterm⟩

theorem pollLoop_error_first (t : String) :
    ∀ pre (r : PollRes) rest, (∀ q ∈ pre, isTerminal q.status = false) → r.status = ("error") →
      (pollLoop t (pre ++ r :: rest)).1 = t := by
  intro pre
  induction pre with
  | nil =>
    intro r rest _ hr
    have hne : ¬ r.status = ("completed") := by rw [hr]; decide
    simp only [List.nil_append, pollLoop, if_neg hne, if_pos hr]
  | cons q pre' ih =>
    intro r rest h hr
    have hq : isTerminal q.status = false := h q (List.mem_cons_self q pre')
    rw [isTerminal, decide_eq_false_iff_not] at hq
    push_neg at hq
    rw [List.cons_append]
    simp only [pollLoop, if_neg hq.1, if_neg hq.2]
    exact ih r rest (fun x hx => h x (List.mem_cons_of_mem q hx)) hr

/-- Claim C1: for every key-actions text that is non-empty and contains neither a
newline nor the substring "- ", the displayed key-actions value is computed by
replacing every semicolon with a period, splitting on periods, stripping each
fragment and discarding empty fragments (`fragmentsL`), and, when more than one
fragment survives, prefixing each with "- " and joining with newlines; the
example input yields exactly the three expected bullet lines; and a key-actions
text that already contains a newline or "- " is shown verbatim. -/
theorem claim1_bullet_formatting :
    (∀ ka : List Char, ka ≠ [] → ¬(dashMarkL <:+: ka) → ¬([newlineChar] <:+: ka) →
        1 < (fragmentsL ka).length →
        displayKeyActionsL ka = pyJoin [newlineChar] ((fragmentsL ka).map fun p => '-' :: ' ' :: p))
    ∧ displayKeyActions ("Check vitals. Schedule follow-up. Order bloodwork.") =
        ("- Check vitals\n- Schedule follow-up\n- Order bloodwork")
    ∧ (∀ ka : List Char, (dashMarkL <:+: ka ∨ [newlineChar] <:+: ka) →
        displayKeyActionsL ka = ka) := by
  refine ⟨?_, by decide, ?_⟩
  · intro ka h0 hd hn h3
    exact displayKeyActionsL_eq_join ka h0 ((containsL_eq_false_iff ka dashMarkL).mpr hd)
      ((containsL_eq_false_iff ka [newlineChar]).mpr hn) h3
  · intro ka h
    apply displayKeyActionsL_eq_self_of_contains
    rcases h with h | h
    · exact Or.inl ((containsL_iff ka dashMarkL).mpr h)
    · exact Or.inr ((containsL_iff ka [newlineChar]).mpr h)

/-- Concrete instance of the universally quantified part of C1. -/
theorem claim1_witness :
    displayKeyActionsL (("a. b").data) =
      pyJoin [newlineChar] ((fragmentsL (("a. b").data)).map fun p => '-' :: ' ' :: p) :=
  claim1_bullet_formatting.1 (("a. b").data) (by decide) (by decide) (by decide) (by decide)

/-- Claim C2 (amended): the displayed Summary view is the text before the marker
(or the full text); when that text begins — at its very first character, up to
letter case — with the label, the display is the remainder of the text
stripped of surrounding whitespace; when the lowercased stripped text does not
start with the label the text is shown as-is; the example summary displays
exactly the expected sentence. -/
theorem claim2_label_strip :
    (∀ s p r : List Char, beforeMarkerL s = p ++ r → p.map Char.toLower = labelL →
        summaryDisplayL s = pyStripL r)
    ∧ (∀ s : List Char,
        labelL.isPrefixOf (pyStripL ((beforeMarkerL s).map Char.toLower)) = false →
        summaryDisplayL s = beforeMarkerL s)
    ∧ summaryDisplay ("Summary: Patient has a cold.Key Actions:Rest; drink fluids.") =
        ("Patient has a cold.") := by
  refine ⟨?_, ?_, by decide⟩
  · intro s p r hb hp
    rw [summaryDisplayL, hb]
    exact stripLabelL_label_append p r hp
  · intro s hpre
    rw [summaryDisplayL]
    simp [stripLabelL, hpre]

/-- Concrete instance of the universally quantified part of C2 (amended). -/
theorem claim2_witness :
    summaryDisplayL (("Summary: rest up").data) = pyStripL ((" rest up").data) :=
  claim2_label_strip.1 (("Summary: rest up").data) (("Summary:").data) ((" rest up").data)
    (by decide) (by decide)

/-- Claim C2 (counterexample to the claim as stated): with one space before the
label, the code removes the first eight characters of the unstripped text, so
the display keeps a remnant of the label — it is neither the label-stripped
text promised by the claim (computed by `specSummaryDisplayL`, the reading of
the spec sentence) nor the untouched input. -/
theorem claim2_counterexample :
    summaryDisplay (" Summary: Patient has a cold.") = (": Patient has a cold.")
    ∧ specSummaryDisplayL ((" Summary: Patient has a cold.").data) = (("Patient has a cold.").data)
    ∧ ((": Patient has a cold.") : String) ≠ ("Patient has a cold.")
    ∧ ((": Patient has a cold.") : String) ≠ (" Summary: Patient has a cold.") :=
  ⟨by decide, by decide, by decide, by decide⟩

/-- Claim C3: for every summary text containing the marker, the extracted
key-actions text equals the substring strictly after the first occurrence of
the marker, stripped of surrounding whitespace: the summary decomposes as
`b ++ markerL ++ a` with no occurrence of the marker starting before `b` ends,
and the extraction result is `pyStripL a`. -/
theorem claim3_extraction (s : List Char) (h : containsL s markerL = true) :
    ∃ b a, s = b ++ markerL ++ a ∧ extractKeyActionsL s = pyStripL a ∧
      ∀ k, k < b.length → ¬ markerL <+: s.drop k := by
  rw [containsL] at h
  obtain ⟨⟨b, a⟩, hsp⟩ := Option.isSome_iff_exists.mp h
  refine ⟨b, a, splitFirstL_eq_append markerL s b a hsp, ?_, splitFirstL_min markerL s b a hsp⟩
  simp [extractKeyActionsL, hsp]

/-- Concrete instance of C3. -/
theorem claim3_witness :
    containsL (("Plan.Key Actions: rest now ").data) markerL = true ∧
    ∃ b a, (("Plan.Key Actions: rest now ").data) = b ++ markerL ++ a ∧
      extractKeyActionsL (("Plan.Key Actions: rest now ").data) = pyStripL a ∧
      ∀ k, k < b.length → ¬ markerL <+: ((("Plan.Key Actions: rest now ").data).drop k) :=
  ⟨by decide, claim3_extraction (("Plan.Key Actions: rest now ").data) (by decide)⟩

/-- Claim C4 (amended): for every summary text lacking the marker, the extracted
key-actions value is empty and the Key Insights page shows the placeholder; the
displayed summary is the input with the label transform of lines 133-134
applied — in particular it is the input unchanged whenever the lowercased
stripped input does not start with the label. -/
theorem claim4_no_marker (s : List Char) (hm : containsL s markerL = false) :
    extractKeyActionsL s = []
    ∧ keyInsightsShownL s = placeholderL
    ∧ summaryDisplayL s = stripLabelL s
    ∧ (labelL.isPrefixOf (pyStripL (s.map Char.toLower)) = false → summaryDisplayL s = s) := by
  have hnone := splitFirstL_eq_none markerL s hm
  have hext : extractKeyActionsL s = [] := by simp [extractKeyActionsL, hnone]
  have hbm : beforeMarkerL s = s := by simp [beforeMarkerL, hnone]
  refine ⟨hext, ?_, by rw [summaryDisplayL, hbm], ?_⟩
  · rw [keyInsightsShownL, hext]
    rfl
  · intro hpre
    rw [summaryDisplayL, hbm]
    simp [stripLabelL, hpre]

/-- Concrete instance of C4 (amended). -/
theorem claim4_witness :
    extractKeyActionsL (("plain note").data) = []
    ∧ keyInsightsShownL (("plain note").data) = placeholderL
    ∧ summaryDisplayL (("plain note").data) = stripLabelL (("plain note").data)
    ∧ (labelL.isPrefixOf (pyStripL ((("plain note").data).map Char.toLower)) = false →
        summaryDisplayL (("plain note").data) = (("plain note").data)) :=
  claim4_no_marker (("plain note").data) (by decide)

/-- Claim C4 (counterexample to the claim as stated): a marker-free summary with
a tab before the label displays as a mangled remnant that is neither the
unchanged input nor the input with the label removed (under either reading of
removal), though the key-actions value is indeed empty. -/
theorem claim4_counterexample :
    summaryDisplay ("\tSummary: hello") = (": hello")
    ∧ extractKeyActions ("\tSummary: hello") = ("")
    ∧ ((": hello") : String) ≠ ("\tSummary: hello")
    ∧ ((": hello") : String) ≠ ("hello")
    ∧ ((": hello") : String) ≠ ("\t hello") :=
  ⟨by decide, by decide, by decide, by decide, by decide⟩

/-- Claim C5: re-applying the display-formatting transform to its own output,
when that output is already bulleted (contains "- " or a newline), returns the
output unchanged. -/
theorem claim5_idempotent (ka : List Char)
    (h : containsL (displayKeyActionsL ka) dashMarkL = true
        ∨ containsL (displayKeyActionsL ka) [newlineChar] = true) :
    displayKeyActionsL (displayKeyActionsL ka) = displayKeyActionsL ka :=
  displayKeyActionsL_eq_self_of_contains (displayKeyActionsL ka) h

/-- Concrete instance of C5. -/
theorem claim5_witness :
    displayKeyActionsL (displayKeyActionsL (("Check vitals. Rest.").data)) =
      displayKeyActionsL (("Check vitals. Rest.").data) :=
  claim5_idempotent (("Check vitals. Rest.").data) (Or.inl (by decide))

/-- Claim C6: the polling loop exits exactly when some response in the stream
has a terminal status ("completed" or "error"); a "completed" head stores the
response text and exits, an "error" head surfaces the failure message and
exits, a non-terminal head emits a status message and continues; and over a
stream with no terminal status the loop is still running after consuming any
number of responses — there is no timeout or retry bound. -/
theorem claim6_polling (t : String) (rs : List PollRes) :
    ((pollLoop t rs).2.2.isSome = true ↔ ∃ r ∈ rs, isTerminal r.status = true)
    ∧ (∀ r : PollRes, ∀ rest, r.status = ("completed") →
        pollLoop t (r :: rest) =
          (r.text, [Msg.success ("✅ Transcription completed!")], some ("completed")))
    ∧ (∀ r : PollRes, ∀ rest, r.status = ("error") →
        pollLoop t (r :: rest) =
          (t, [Msg.err ("Transcription failed.")], some ("error")))
    ∧ (∀ r : PollRes, ∀ rest, isTerminal r.status = false →
        pollLoop t (r :: rest) =
          ((pollLoop t rest).1,
            Msg.info (("Status: ") ++ r.status ++ ("... Waiting...")) :: (pollLoop t rest).2.1,
            (pollLoop t rest).2.2))
    ∧ (∀ f : Nat → PollRes, (∀ i, isTerminal (f i).status = false) →
        ∀ n, (pollLoop t ((List.range n).map f)).2.2 = none) := by
  refine ⟨pollLoop_isSome_iff t rs, ?_, ?_, ?_, ?_⟩
  · intro r rest h1
    simp only [pollLoop, if_pos h1]
  · intro r rest h2
    have hne : ¬ r.status = ("completed") := by rw [h2]; decide
    simp only [pollLoop, if_neg hne, if_pos h2]
  · intro r rest h
    rw [isTerminal, decide_eq_false_iff_not] at h
    push_neg at h
    simp only [pollLoop, if_neg h.1, if_neg h.2]
  · intro f hf n
    have hall : ∀ r ∈ (List.range n).map f, isTerminal r.status = false := by
      intro r hr
      rw [List.mem_map] at hr
      obtain ⟨i, _, hi⟩ := hr
      rw [← hi]
      exact hf i
    rw [pollLoop_nonterminal t ((List.range n).map f) hall]

/-- Concrete instance of C6: a "completed" response ends the loop and stores
its text. -/
theorem claim6_witness :
    pollLoop ("old") [PollRes.mk ("completed") ("fresh")] =
      (("fresh"), [Msg.success ("✅ Transcription completed!")], some ("completed")) :=
  (claim6_polling ("old") []).2.1 (PollRes.mk ("completed") ("fresh")) [] rfl

/-- Claim C7: every failure branch leaves the session-state field of its stage
unchanged — failed upload, failed job submission, a poll stream whose first
terminal status is "error", a poll stream with no terminal status at all, a
summarization response with a non-success status, and a summarization response
whose body lacks the nested text field. -/
theorem claim7_failure_preserves_state :
    (∀ sOk polls (t : String), (transcribeRun false sOk polls t).1 = t)
    ∧ (∀ polls (t : String), (transcribeRun true false polls t).1 = t)
    ∧ (∀ pre (r : PollRes) rest (t : String),
        (∀ q ∈ pre, isTerminal q.status = false) → r.status = ("error") →
        (transcribeRun true true (pre ++ r :: rest) t).1 = t)
    ∧ (∀ polls (t : String), (∀ q ∈ polls, isTerminal q.status = false) →
        (transcribeRun true true polls t).1 = t)
    ∧ (∀ res (summary : String), res.ok = false → (summarizeRun res summary).1 = summary)
    ∧ (∀ res (summary : String), res.text = none → (summarizeRun res summary).1 = summary) := by
  refine ⟨?_, ?_, ?_, ?_, ?_, ?_⟩
  · intro sOk polls t; rfl
  · intro polls t; rfl
  · intro pre r rest t hpre hr
    have h := pollLoop_error_first t pre r rest hpre hr
    simpa [transcribeRun] using h
  · intro polls t hall
    have h := pollLoop_nonterminal t polls hall
    simp [transcribeRun, h]
  · intro res summary hok
    simp [summarizeRun, hok]
  · intro res summary htext
    cases hok : res.ok
    · simp [summarizeRun, hok]
    · simp [summarizeRun, hok, htext]

/-- Concrete instance of C7: a remote-reported error leaves the transcript
as it was. -/
theorem claim7_witness :
    (transcribeRun true true ([] ++ PollRes.mk ("error") ("x") :: []) ("keep")).1 = ("keep") :=
  claim7_failure_preserves_state.2.2.1 [] (PollRes.mk ("error") ("x")) [] ("keep")
    (by intro q hq; simp at hq) rfl

/-- Claim C8: whenever the bullet reformatting applies, splitting the output on
newlines gives back exactly the "- "-prefixed fragments, and no fragment
contains a period or a semicolon or any leading or trailing whitespace — so no
output line contains a period or semicolon and each starts with "- ". -/
theorem claim8_no_delimiters (ka : List Char) (h0 : ka ≠ [])
    (h1 : containsL ka dashMarkL = false) (h2 : containsL ka [newlineChar] = false)
    (h3 : 1 < (fragmentsL ka).length) :
    splitChar newlineChar (displayKeyActionsL ka) =
      (fragmentsL ka).map (fun p => '-' :: ' ' :: p)
    ∧ ∀ p ∈ fragmentsL ka, '.' ∉ p ∧ ';' ∉ p ∧ pyStripL p = p := by
  constructor
  · rw [displayKeyActionsL_eq_join ka h0 h1 h2 h3]
    apply splitChar_pyJoin
    · intro hnil
      rw [List.map_eq_nil_iff] at hnil
      rw [hnil] at h3
      simp at h3
    · intro q hq
      rw [List.mem_map] at hq
      obtain ⟨p, hp, hpq⟩ := hq
      rw [← hpq]
      intro hmem
      rcases List.mem_cons.mp hmem with h | h
      · exact absurd h (by decide)
      · rcases List.mem_cons.mp h with h' | h'
        · exact absurd h' (by decide)
        · exact fragmentsL_no_newline ka p h2 hp h'
  · intro p hp
    exact ⟨fragmentsL_no_dot ka p hp, fragmentsL_no_semi ka p hp, fragmentsL_stripped ka p hp⟩

/-- Concrete instance of C8. -/
theorem claim8_witness :
    splitChar newlineChar (displayKeyActionsL (("x. y").data)) =
      (fragmentsL (("x. y").data)).map (fun p => '-' :: ' ' :: p)
    ∧ ∀ p ∈ fragmentsL (("x. y").data), '.' ∉ p ∧ ';' ∉ p ∧ pyStripL p = p :=
  claim8_no_delimiters (("x. y").data) (by decide) (by decide) (by decide) (by decide)

/-- Claim C9: when the key-actions text is non-empty, contains neither "- " nor
a newline, and splitting yields at most one surviving fragment, the displayed
value is the original string verbatim — the trailing period of the example is
kept, and the display differs from the trimmed fragment. -/
theorem claim9_single_fragment :
    (∀ ka : List Char, ka ≠ [] → containsL ka dashMarkL = false →
        containsL ka [newlineChar] = false → (fragmentsL ka).length ≤ 1 →
        displayKeyActionsL ka = ka)
    ∧ displayKeyActions ("Order bloodwork.") = ("Order bloodwork.")
    ∧ displayKeyActions ("Order bloodwork.") ≠ ("Order bloodwork") := by
  refine ⟨?_, by decide, by decide⟩
  intro ka _ _ _ hle
  exact displayKeyActionsL_eq_self_of_few ka (by omega)

/-- Concrete instance of the universally quantified part of C9. -/
theorem claim9_witness :
    displayKeyActionsL (("Rest.").data) = (("Rest.").data) :=
  claim9_single_fragment.1 (("Rest.").data) (by decide) (by decide) (by decide) (by decide)

/-- Claim C10: on both the Summary and the Key Insights pages the download
payload is exactly the displayed text — the summary download serves the
post-marker-split, label-stripped display text rather than the raw stored
summary, and the key-insights download serves the bullet-formatted key actions
or, when these are empty, the placeholder. -/
theorem claim10_download_matches_view :
    (∀ s : List Char, (summaryPage s).1 = (summaryPage s).2
        ∧ (summaryPage s).2 = summaryDisplayL s)
    ∧ (∀ s : List Char, (keyInsightsPage s).1 = (keyInsightsPage s).2
        ∧ (keyInsightsPage s).2 = keyInsightsShownL s
        ∧ (displayKeyActionsL (extractKeyActionsL s) = [] →
            (keyInsightsPage s).2 = placeholderL))
    ∧ (summaryPage (("Summary: Patient has a cold.Key Actions:Rest; drink fluids.").data)).2 ≠
        (("Summary: Patient has a cold.Key Actions:Rest; drink fluids.").data) := by
  refine ⟨?_, ?_, by decide⟩
  · intro s
    exact ⟨rfl, rfl⟩
  · intro s
    refine ⟨rfl, rfl, ?_⟩
    intro h
    show keyInsightsShownL s = placeholderL
    simp [keyInsightsShownL, h]

/-- Concrete instance of the hypothesis-bearing part of C10. -/
theorem claim10_witness :
    (keyInsightsPage (("no marker").data)).2 = placeholderL :=
  (claim10_download_matches_view.2.1 (("no marker").data)).2.2 (by decide)

end Transcribe
